import Mathlib

/-!
Verification of the stream-merging core of the `linea-game-ai` recorder.

The embedded code is `Recorder.__to_training_data` (the two-pointer temporal
merge of a key-event sequence and a screen-frame sequence) and the average
frame-rate computation of `Recorder.__save_avi_video` from `recorder.py`.

Timestamps (Python floats holding second values) are modelled as rationals.
The Python `set` held in `cur_keys` is modelled as a `Finset String`
(Python iterates a set in unspecified order, so only the set contents are
meaningful).  Python exceptions (`KeyError` from `set.remove`, `IndexError`
from indexing an empty list, `ZeroDivisionError`) are modelled as explicit
error constructors of the result types.
-/

/-- `KeyEvent` from recorder.py: one keyboard transition. -/
structure KeyEvent where
  key_code : String
  timestamp : ℚ
  down : Bool
deriving DecidableEq, Repr

/-- `ScreenEvent` from recorder.py: one captured frame.  The pixel buffer is
opaque to the merge, so it is modelled by a `Nat` identifier. -/
structure ScreenEvent where
  screen : Nat
  timestamp : ℚ
deriving DecidableEq, Repr

/-- `DatasetItem` from recorder.py: one output row of the merge. -/
structure DatasetItem where
  screen : Nat
  key_codes : Finset String
  timestamp : ℚ := 0
deriving DecidableEq

/-- Result of running `__to_training_data`: either the produced dataset, or
one of the Python exceptions the function can raise (`KeyError` from
`cur_keys.remove`, `IndexError` from `screen_sequence[-1]` on an empty list),
or fuel exhaustion of the embedded loop. -/
inductive MergeResult where
  | ok (data : List DatasetItem)
  | keyError
  | indexError
  | outOfFuel
deriving DecidableEq

/-- The key event `key_sequence[ki] if ki < len(key_sequence) else None`,
filtered by the loop's consume condition
`key_event is not None and key_event.timestamp < screen_event.timestamp`. -/
def pendingKey (key_sequence : List KeyEvent) (ki : Nat) (t : ℚ) :
    Option KeyEvent :=
  match key_sequence[ki]? with
  | some e => if e.timestamp < t then some e else none
  | none => none

/-- The `while si < len(screen_sequence)` loop of `__to_training_data`,
with explicit fuel.  Each iteration either consumes the pending key event
(adding its key on `down`, removing it on `up` — raising `KeyError` when the
key is absent, as Python `set.remove` does), or breaks at the tail cutoff,
or emits a `DatasetItem` for the current frame. -/
def mergeAux (key_sequence : List KeyEvent) (screen_sequence : List ScreenEvent)
    (end_timestamp : ℚ) :
    Nat → Nat → Nat → Finset String → List DatasetItem → MergeResult
  | 0, _, _, _, _ => MergeResult.outOfFuel
  | fuel + 1, ki, si, cur_keys, data_out =>
    match screen_sequence[si]? with
    | none => MergeResult.ok data_out
    | some screen_event =>
      match pendingKey key_sequence ki screen_event.timestamp with
      | some key_event =>
        if key_event.down then
          mergeAux key_sequence screen_sequence end_timestamp fuel (ki + 1) si
            (insert key_event.key_code cur_keys) data_out
        else if key_event.key_code ∈ cur_keys then
          mergeAux key_sequence screen_sequence end_timestamp fuel (ki + 1) si
            (cur_keys.erase key_event.key_code) data_out
        else
          MergeResult.keyError
      | none =>
        if end_timestamp < screen_event.timestamp then
          MergeResult.ok data_out
        else
          mergeAux key_sequence screen_sequence end_timestamp fuel ki (si + 1)
            cur_keys
            (data_out ++ [{ screen := screen_event.screen,
                            key_codes := cur_keys,
                            timestamp := screen_event.timestamp }])

/-- `Recorder.__to_training_data`.  `end_timestamp` is computed from
`screen_sequence[-1]` before the loop, so an empty frame sequence raises
`IndexError`.  The fuel given to the loop is one more than the sum of the
two sequence lengths, which is shown sufficient below. -/
def toTrainingData (key_sequence : List KeyEvent)
    (screen_sequence : List ScreenEvent) (discard_tail_sec : ℚ) : MergeResult :=
  match screen_sequence.getLast? with
  | none => MergeResult.indexError
  | some last =>
    mergeAux key_sequence screen_sequence (last.timestamp - discard_tail_sec)
      (key_sequence.length + screen_sequence.length + 1) 0 0 ∅ []

/-- Result of the `avg_fps` computation in `Recorder.__save_avi_video`. -/
inductive FpsResult where
  | ok (fps : ℚ)
  | zeroDivisionError
  | indexError
deriving DecidableEq, Repr

/-- `avg_fps = len(dataset) / (dataset[-1].timestamp - dataset[0].timestamp)`
from `Recorder.__save_avi_video`: indexing an empty dataset raises
`IndexError`; a zero timestamp span raises `ZeroDivisionError`. -/
def avgFps (dataset : List DatasetItem) : FpsResult :=
  match dataset.getLast?, dataset.head? with
  | some last, some first =>
    if last.timestamp - first.timestamp = 0 then FpsResult.zeroDivisionError
    else FpsResult.ok ((dataset.length : ℚ) / (last.timestamp - first.timestamp))
  | _, _ => FpsResult.indexError

/-- One key transition applied to an active key set: add on `down`, remove
on `up`. -/
def applyKeyEvent (cur : Finset String) (e : KeyEvent) : Finset String :=
  if e.down then insert e.key_code cur else cur.erase e.key_code

/-- The reference `ActiveKeySet` at time `t`: the result of applying, in
arrival order, exactly the key events with timestamp strictly below `t`. -/
def activeKeySetAt (key_sequence : List KeyEvent) (t : ℚ) : Finset String :=
  (key_sequence.filter (fun e => e.timestamp < t)).foldl applyKeyEvent ∅

/-- A key-event sequence is well matched from `cur` when replaying it never
removes a key that is not currently held. -/
def wellMatchedFrom (cur : Finset String) : List KeyEvent → Bool
  | [] => true
  | e :: rest =>
    if e.down then wellMatchedFrom (insert e.key_code cur) rest
    else if e.key_code ∈ cur then wellMatchedFrom (cur.erase e.key_code) rest
    else false

/-- Time order of a key-event sequence (non-decreasing timestamps). -/
def keysSorted (key_sequence : List KeyEvent) : Prop :=
  key_sequence.Pairwise (fun a b => a.timestamp ≤ b.timestamp)

/-- Time order of a frame sequence (non-decreasing timestamps). -/
def framesSorted (screen_sequence : List ScreenEvent) : Prop :=
  screen_sequence.Pairwise (fun a b => a.timestamp ≤ b.timestamp)

instance : DecidablePred framesSorted := fun l =>
  List.instDecidablePairwise l

instance : DecidablePred keysSorted := fun l =>
  List.instDecidablePairwise l

/-- The observable identity of an output row: its frame buffer and timestamp. -/
def itemSig (item : DatasetItem) : Nat × ℚ := (item.screen, item.timestamp)

/-- The observable identity of a frame: its buffer and timestamp. -/
def frameSig (s : ScreenEvent) : Nat × ℚ := (s.screen, s.timestamp)

/-- Concrete key events: one key pressed at `t = 0.5`, released at `t = 2.5`. -/
def exKeys : List KeyEvent := [⟨"k", 1/2, true⟩, ⟨"k", 5/2, false⟩]

/-- Concrete frames at `t = 0, 1, 2, 3, 4`. -/
def exFrames : List ScreenEvent := [⟨0, 0⟩, ⟨1, 1⟩, ⟨2, 2⟩, ⟨3, 3⟩, ⟨4, 4⟩]

/-- The dataset the merge produces from `exKeys` and `exFrames` with no
tail discard. -/
def exData : List DatasetItem :=
  [⟨0, ∅, 0⟩, ⟨1, {"k"}, 1⟩, ⟨2, {"k"}, 2⟩, ⟨3, ∅, 3⟩, ⟨4, ∅, 4⟩]

/-- Concrete frames at `t = 0, 1` with no key events. -/
def s2Frames : List ScreenEvent := [⟨0, 0⟩, ⟨1, 1⟩]

/-- The dataset the merge produces from no key events and `s2Frames` with no
tail discard. -/
def s2Data : List DatasetItem := [⟨0, ∅, 0⟩, ⟨1, ∅, 1⟩]

section StepLemmas

variable {key_sequence : List KeyEvent} {screen_sequence : List ScreenEvent}
variable {end_timestamp : ℚ} {fuel ki si : Nat} {cur : Finset String}
variable {out : List DatasetItem} {sc : ScreenEvent} {e : KeyEvent}

/-- A pending key event is the key event at the cursor, and its timestamp is
strictly below the current frame's. -/
lemma pendingKey_eq_some {t : ℚ}
    (h : pendingKey key_sequence ki t = some e) :
    key_sequence[ki]? = some e ∧ e.timestamp < t := by
  unfold pendingKey at h
  cases hk : key_sequence[ki]? with
  | none => rw [hk] at h; exact absurd h (by simp)
  | some e2 =>
    rw [hk] at h
    by_cases ht : e2.timestamp < t
    · simp [ht] at h; subst h; exact ⟨rfl, ht⟩
    · simp [ht] at h

/-- When no key event is pending, the key event at the cursor (if any) is at
or after the current frame's timestamp. -/
lemma pendingKey_none_le {t : ℚ}
    (h : pendingKey key_sequence ki t = none)
    (hk : key_sequence[ki]? = some e) : t ≤ e.timestamp := by
  unfold pendingKey at h
  rw [hk] at h
  by_cases ht : e.timestamp < t
  · simp [ht] at h
  · exact le_of_not_lt ht

lemma mergeAux_fuel_zero :
    mergeAux key_sequence screen_sequence end_timestamp 0 ki si cur out =
      MergeResult.outOfFuel := rfl

/-- The loop exits normally when the frame cursor has passed the end. -/
lemma mergeAux_step_done (hsi : screen_sequence[si]? = none) :
    mergeAux key_sequence screen_sequence end_timestamp (fuel + 1) ki si cur
      out = MergeResult.ok out := by
  rw [mergeAux, hsi]

/-- Consuming a pending down event adds its key and advances the key cursor. -/
lemma mergeAux_step_down (hsi : screen_sequence[si]? = some sc)
    (hk : pendingKey key_sequence ki sc.timestamp = some e)
    (hd : e.down = true) :
    mergeAux key_sequence screen_sequence end_timestamp (fuel + 1) ki si cur
      out =
    mergeAux key_sequence screen_sequence end_timestamp fuel (ki + 1) si
      (insert e.key_code cur) out := by
  rw [mergeAux, hsi]
  simp only [hk, hd, if_true]

/-- Consuming a pending up event whose key is held removes the key and
advances the key cursor. -/
lemma mergeAux_step_up_mem (hsi : screen_sequence[si]? = some sc)
    (hk : pendingKey key_sequence ki sc.timestamp = some e)
    (hd : e.down = false) (hm : e.key_code ∈ cur) :
    mergeAux key_sequence screen_sequence end_timestamp (fuel + 1) ki si cur
      out =
    mergeAux key_sequence screen_sequence end_timestamp fuel (ki + 1) si
      (cur.erase e.key_code) out := by
  rw [mergeAux, hsi]
  simp only [hk, hd, hm, if_false, if_true, Bool.false_eq_true]

/-- A pending up event whose key is not held raises `KeyError`. -/
lemma mergeAux_step_up_not_mem (hsi : screen_sequence[si]? = some sc)
    (hk : pendingKey key_sequence ki sc.timestamp = some e)
    (hd : e.down = false) (hm : e.key_code ∉ cur) :
    mergeAux key_sequence screen_sequence end_timestamp (fuel + 1) ki si cur
      out = MergeResult.keyError := by
  rw [mergeAux, hsi]
  simp only [hk, hd, hm, if_false, Bool.false_eq_true]

/-- The loop breaks at the tail cutoff. -/
lemma mergeAux_step_cutoff (hsi : screen_sequence[si]? = some sc)
    (hk : pendingKey key_sequence ki sc.timestamp = none)
    (ht : end_timestamp < sc.timestamp) :
    mergeAux key_sequence screen_sequence end_timestamp (fuel + 1) ki si cur
      out = MergeResult.ok out := by
  rw [mergeAux, hsi]
  simp only [hk, ht, if_true]

/-- With no pending key event and the frame inside the cutoff, the loop
emits a dataset item and advances the frame cursor. -/
lemma mergeAux_step_emit (hsi : screen_sequence[si]? = some sc)
    (hk : pendingKey key_sequence ki sc.timestamp = none)
    (ht : ¬ end_timestamp < sc.timestamp) :
    mergeAux key_sequence screen_sequence end_timestamp (fuel + 1) ki si cur
      out =
    mergeAux key_sequence screen_sequence end_timestamp fuel ki (si + 1) cur
      (out ++ [{ screen := sc.screen, key_codes := cur,
                 timestamp := sc.timestamp }]) := by
  rw [mergeAux, hsi]
  simp only [hk, ht, if_false]

end StepLemmas

section ListHelpers

variable {α : Type}

/-- A filter that keeps exactly the entries of the first `n` positions
equals `take n`. -/
lemma filter_eq_take (p : α → Bool) (l : List α) (n : Nat)
    (h1 : ∀ x ∈ l.take n, p x = true) (h2 : ∀ x ∈ l.drop n, ¬ p x = true) :
    l.filter p = l.take n := by
  conv_lhs => rw [← List.take_append_drop n l]
  rw [List.filter_append, List.filter_eq_self.mpr h1,
    List.filter_eq_nil_iff.mpr h2, List.append_nil]

variable {f : α → ℚ} {l : List α}

/-- In a list with non-decreasing `f`, entries at earlier positions have
`f`-values at most those at later positions. -/
lemma pairwise_getElem?_le (hl : l.Pairwise fun a b => f a ≤ f b)
    {i j : Nat} {a b : α} (ha : l[i]? = some a) (hb : l[j]? = some b)
    (hij : i ≤ j) : f a ≤ f b := by
  obtain ⟨hi, rfl⟩ := List.getElem?_eq_some_iff.mp ha
  obtain ⟨hj, rfl⟩ := List.getElem?_eq_some_iff.mp hb
  rcases Nat.lt_or_ge i j with h | h
  · exact List.pairwise_iff_getElem.mp hl i j hi hj h
  · have hji : i = j := le_antisymm hij h
    subst hji
    exact le_refl _

/-- In a list with non-decreasing `f`, every entry is bounded by the last. -/
lemma pairwise_le_getLast (hl : l.Pairwise fun a b => f a ≤ f b)
    {b : α} (hb : l.getLast? = some b) {x : α} (hx : x ∈ l) : f x ≤ f b := by
  obtain ⟨i, hi, rfl⟩ := List.mem_iff_getElem.mp hx
  rw [List.getLast?_eq_getElem?] at hb
  exact pairwise_getElem?_le hl (List.getElem?_eq_getElem hi) hb (by omega)

/-- In a list with non-decreasing `f`, the head bounds every entry below. -/
lemma pairwise_head_le (hl : l.Pairwise fun a b => f a ≤ f b)
    {a : α} (ha : l.head? = some a) {x : α} (hx : x ∈ l) : f a ≤ f x := by
  obtain ⟨i, hi, rfl⟩ := List.mem_iff_getElem.mp hx
  rw [List.head?_eq_getElem?] at ha
  exact pairwise_getElem?_le hl ha (List.getElem?_eq_getElem hi) (by omega)

/-- In a list with non-decreasing `f`, the entry at position `ki` bounds
every entry of `drop ki` below. -/
lemma pairwise_getElem_le_drop (hl : l.Pairwise fun a b => f a ≤ f b)
    {ki : Nat} {e : α} (he : l[ki]? = some e) {x : α}
    (hx : x ∈ l.drop ki) : f e ≤ f x := by
  obtain ⟨hki, rfl⟩ := List.getElem?_eq_some_iff.mp he
  have hdrop : (l.drop ki).Pairwise fun a b => f a ≤ f b :=
    List.Pairwise.sublist (List.drop_sublist ki l) hl
  rw [List.drop_eq_getElem_cons hki] at hdrop hx
  rcases List.mem_cons.mp hx with h | h
  · rw [h]
  · exact (List.pairwise_cons.mp hdrop).1 x h

end ListHelpers

/-- The fuel supplied by `toTrainingData` is sufficient: every loop iteration
advances the key cursor, advances the frame cursor, or returns. -/
lemma mergeAux_ne_outOfFuel (key_sequence : List KeyEvent)
    (screen_sequence : List ScreenEvent) (end_timestamp : ℚ) :
    ∀ fuel ki si cur out,
      key_sequence.length - ki + (screen_sequence.length - si) < fuel →
      mergeAux key_sequence screen_sequence end_timestamp fuel ki si cur out ≠
        MergeResult.outOfFuel := by
  intro fuel
  induction fuel with
  | zero => intro ki si cur out h; exact absurd h (by omega)
  | succ fuel ih =>
    intro ki si cur out h
    cases hsi : screen_sequence[si]? with
    | none => rw [mergeAux_step_done hsi]; simp
    | some sc =>
      cases hk : pendingKey key_sequence ki sc.timestamp with
      | some e =>
        have hki := (pendingKey_eq_some hk).1
        have hlt : ki < key_sequence.length :=
          (List.getElem?_eq_some_iff.mp hki).1
        cases hd : e.down with
        | true =>
          rw [mergeAux_step_down hsi hk hd]
          exact ih _ _ _ _ (by omega)
        | false =>
          by_cases hm : e.key_code ∈ cur
          · rw [mergeAux_step_up_mem hsi hk hd hm]
            exact ih _ _ _ _ (by omega)
          · rw [mergeAux_step_up_not_mem hsi hk hd hm]; simp
      | none =>
        by_cases ht : end_timestamp < sc.timestamp
        · rw [mergeAux_step_cutoff hsi hk ht]; simp
        · rw [mergeAux_step_emit hsi hk ht]
          have hsl : si < screen_sequence.length :=
            (List.getElem?_eq_some_iff.mp hsi).1
          exact ih _ _ _ _ (by omega)

/-- The loop never raises `KeyError` when the remaining key events replay
consistently from the current active set. -/
lemma mergeAux_ne_keyError (key_sequence : List KeyEvent)
    (screen_sequence : List ScreenEvent) (end_timestamp : ℚ) :
    ∀ fuel ki si cur out,
      wellMatchedFrom cur (key_sequence.drop ki) = true →
      mergeAux key_sequence screen_sequence end_timestamp fuel ki si cur out ≠
        MergeResult.keyError := by
  intro fuel
  induction fuel with
  | zero => intro ki si cur out _; rw [mergeAux_fuel_zero]; simp
  | succ fuel ih =>
    intro ki si cur out hwm
    cases hsi : screen_sequence[si]? with
    | none => rw [mergeAux_step_done hsi]; simp
    | some sc =>
      cases hk : pendingKey key_sequence ki sc.timestamp with
      | some e =>
        obtain ⟨hki, -⟩ := pendingKey_eq_some hk
        obtain ⟨hlt, hget⟩ := List.getElem?_eq_some_iff.mp hki
        have hdrop : key_sequence.drop ki =
            e :: key_sequence.drop (ki + 1) := by
          rw [List.drop_eq_getElem_cons hlt, hget]
        rw [hdrop] at hwm
        cases hd : e.down with
        | true =>
          rw [mergeAux_step_down hsi hk hd]
          simp only [wellMatchedFrom, hd, if_true] at hwm
          exact ih _ _ _ _ hwm
        | false =>
          by_cases hm : e.key_code ∈ cur
          · rw [mergeAux_step_up_mem hsi hk hd hm]
            simp [wellMatchedFrom, hd, hm] at hwm
            exact ih _ _ _ _ hwm
          · simp [wellMatchedFrom, hd, hm] at hwm
      | none =>
        by_cases ht : end_timestamp < sc.timestamp
        · rw [mergeAux_step_cutoff hsi hk ht]; simp
        · rw [mergeAux_step_emit hsi hk ht]
          exact ih _ _ _ _ hwm

/-- Output accumulated by the loop: what is appended is the observable
content of a block of consecutive frames starting at the frame cursor. -/
lemma mergeAux_ok_sig (key_sequence : List KeyEvent)
    (screen_sequence : List ScreenEvent) (end_timestamp : ℚ) :
    ∀ fuel ki si cur out data,
      mergeAux key_sequence screen_sequence end_timestamp fuel ki si cur out =
        MergeResult.ok data →
      ∃ n, data.map itemSig =
        out.map itemSig ++ ((screen_sequence.drop si).take n).map frameSig := by
  intro fuel
  induction fuel with
  | zero => intro ki si cur out data h; rw [mergeAux_fuel_zero] at h; nomatch h
  | succ fuel ih =>
    intro ki si cur out data h
    cases hsi : screen_sequence[si]? with
    | none =>
      rw [mergeAux_step_done hsi] at h
      obtain rfl : out = data := by injection h
      exact ⟨0, by simp⟩
    | some sc =>
      cases hk : pendingKey key_sequence ki sc.timestamp with
      | some e =>
        cases hd : e.down with
        | true =>
          rw [mergeAux_step_down hsi hk hd] at h
          exact ih _ _ _ _ _ h
        | false =>
          by_cases hm : e.key_code ∈ cur
          · rw [mergeAux_step_up_mem hsi hk hd hm] at h
            exact ih _ _ _ _ _ h
          · rw [mergeAux_step_up_not_mem hsi hk hd hm] at h; nomatch h
      | none =>
        by_cases ht : end_timestamp < sc.timestamp
        · rw [mergeAux_step_cutoff hsi hk ht] at h
          obtain rfl : out = data := by injection h
          exact ⟨0, by simp⟩
        · rw [mergeAux_step_emit hsi hk ht] at h
          obtain ⟨n, hn⟩ := ih _ _ _ _ _ h
          refine ⟨n + 1, ?_⟩
          obtain ⟨hsl, hget⟩ := List.getElem?_eq_some_iff.mp hsi
          have hdrop : screen_sequence.drop si =
              sc :: screen_sequence.drop (si + 1) := by
            rw [List.drop_eq_getElem_cons hsl, hget]
          rw [hn, hdrop, List.take_succ_cons]
          simp [itemSig, frameSig]

/-- Each emitted item comes from a frame at or before the cutoff, so the
output length is bounded by the number of such frames past the cursor. -/
lemma mergeAux_ok_length (key_sequence : List KeyEvent)
    (screen_sequence : List ScreenEvent) (end_timestamp : ℚ) :
    ∀ fuel ki si cur out data,
      mergeAux key_sequence screen_sequence end_timestamp fuel ki si cur out =
        MergeResult.ok data →
      data.length ≤ out.length +
        (screen_sequence.drop si).countP
          (fun sc => sc.timestamp ≤ end_timestamp) := by
  intro fuel
  induction fuel with
  | zero => intro ki si cur out data h; rw [mergeAux_fuel_zero] at h; nomatch h
  | succ fuel ih =>
    intro ki si cur out data h
    cases hsi : screen_sequence[si]? with
    | none =>
      rw [mergeAux_step_done hsi] at h
      obtain rfl : out = data := by injection h
      exact Nat.le_add_right _ _
    | some sc =>
      cases hk : pendingKey key_sequence ki sc.timestamp with
      | some e =>
        cases hd : e.down with
        | true =>
          rw [mergeAux_step_down hsi hk hd] at h
          exact ih _ _ _ _ _ h
        | false =>
          by_cases hm : e.key_code ∈ cur
          · rw [mergeAux_step_up_mem hsi hk hd hm] at h
            exact ih _ _ _ _ _ h
          · rw [mergeAux_step_up_not_mem hsi hk hd hm] at h; nomatch h
      | none =>
        by_cases ht : end_timestamp < sc.timestamp
        · rw [mergeAux_step_cutoff hsi hk ht] at h
          obtain rfl : out = data := by injection h
          exact Nat.le_add_right _ _
        · rw [mergeAux_step_emit hsi hk ht] at h
          have hle := ih _ _ _ _ _ h
          obtain ⟨hsl, hget⟩ := List.getElem?_eq_some_iff.mp hsi
          have hdrop : screen_sequence.drop si =
              sc :: screen_sequence.drop (si + 1) := by
            rw [List.drop_eq_getElem_cons hsl, hget]
          rw [hdrop, List.countP_cons_of_pos _ _
            (by simpa using le_of_not_lt ht)]
          simp only [List.length_append, List.length_cons,
            List.length_nil] at hle
          omega

/-- When every frame is at or before the cutoff, every frame past the
cursor is emitted. -/
lemma mergeAux_ok_length_all (key_sequence : List KeyEvent)
    (screen_sequence : List ScreenEvent) (end_timestamp : ℚ)
    (hall : ∀ sc ∈ screen_sequence, sc.timestamp ≤ end_timestamp) :
    ∀ fuel ki si cur out data, si ≤ screen_sequence.length →
      mergeAux key_sequence screen_sequence end_timestamp fuel ki si cur out =
        MergeResult.ok data →
      data.length = out.length + (screen_sequence.length - si) := by
  intro fuel
  induction fuel with
  | zero => intro ki si cur out data _ h; rw [mergeAux_fuel_zero] at h; nomatch h
  | succ fuel ih =>
    intro ki si cur out data hsile h
    cases hsi : screen_sequence[si]? with
    | none =>
      rw [mergeAux_step_done hsi] at h
      obtain rfl : out = data := by injection h
      have := List.getElem?_eq_none_iff.mp hsi
      omega
    | some sc =>
      cases hk : pendingKey key_sequence ki sc.timestamp with
      | some e =>
        cases hd : e.down with
        | true =>
          rw [mergeAux_step_down hsi hk hd] at h
          exact ih _ _ _ _ _ hsile h
        | false =>
          by_cases hm : e.key_code ∈ cur
          · rw [mergeAux_step_up_mem hsi hk hd hm] at h
            exact ih _ _ _ _ _ hsile h
          · rw [mergeAux_step_up_not_mem hsi hk hd hm] at h; nomatch h
      | none =>
        by_cases ht : end_timestamp < sc.timestamp
        · exact absurd (hall sc (List.getElem?_mem hsi)) (not_le_of_lt ht)
        · rw [mergeAux_step_emit hsi hk ht] at h
          have hsl : si < screen_sequence.length :=
            (List.getElem?_eq_some_iff.mp hsi).1
          have := ih _ _ _ _ _ (by omega) h
          simp only [List.length_append, List.length_cons,
            List.length_nil] at this
          omega

/-- When every frame lies strictly past the cutoff, nothing is emitted. -/
lemma mergeAux_ok_of_all_late (key_sequence : List KeyEvent)
    (screen_sequence : List ScreenEvent) (end_timestamp : ℚ)
    (hall : ∀ sc ∈ screen_sequence, end_timestamp < sc.timestamp) :
    ∀ fuel ki si cur out data,
      mergeAux key_sequence screen_sequence end_timestamp fuel ki si cur out =
        MergeResult.ok data →
      data = out := by
  intro fuel
  induction fuel with
  | zero => intro ki si cur out data h; rw [mergeAux_fuel_zero] at h; nomatch h
  | succ fuel ih =>
    intro ki si cur out data h
    cases hsi : screen_sequence[si]? with
    | none =>
      rw [mergeAux_step_done hsi] at h
      injection h with h
      exact h.symm
    | some sc =>
      cases hk : pendingKey key_sequence ki sc.timestamp with
      | some e =>
        cases hd : e.down with
        | true =>
          rw [mergeAux_step_down hsi hk hd] at h
          exact ih _ _ _ _ _ h
        | false =>
          by_cases hm : e.key_code ∈ cur
          · rw [mergeAux_step_up_mem hsi hk hd hm] at h
            exact ih _ _ _ _ _ h
          · rw [mergeAux_step_up_not_mem hsi hk hd hm] at h; nomatch h
      | none =>
        by_cases ht : end_timestamp < sc.timestamp
        · rw [mergeAux_step_cutoff hsi hk ht] at h
          injection h with h
          exact h.symm
        · exact absurd (hall sc (List.getElem?_mem hsi)) ht

/-- The emit-time property of the loop: at the moment a frame is emitted,
the key events consumed so far are exactly the key events with timestamp
strictly below the frame's timestamp, so the running active set equals the
reference `activeKeySetAt` for that frame. -/
lemma mergeAux_ok_active (key_sequence : List KeyEvent)
    (screen_sequence : List ScreenEvent) (end_timestamp : ℚ)
    (hks : keysSorted key_sequence) (hfs : framesSorted screen_sequence) :
    ∀ fuel ki si cur out data,
      cur = (key_sequence.take ki).foldl applyKeyEvent ∅ →
      (∀ x ∈ key_sequence.take ki, ∀ sc2, screen_sequence[si]? = some sc2 →
        x.timestamp < sc2.timestamp) →
      (∀ item ∈ out,
        item.key_codes = activeKeySetAt key_sequence item.timestamp) →
      mergeAux key_sequence screen_sequence end_timestamp fuel ki si cur out =
        MergeResult.ok data →
      ∀ item ∈ data,
        item.key_codes = activeKeySetAt key_sequence item.timestamp := by
  intro fuel
  induction fuel with
  | zero =>
    intro ki si cur out data _ _ _ h
    rw [mergeAux_fuel_zero] at h; nomatch h
  | succ fuel ih =>
    intro ki si cur out data hcur hpast hout h
    cases hsi : screen_sequence[si]? with
    | none =>
      rw [mergeAux_step_done hsi] at h
      obtain rfl : out = data := by injection h
      exact hout
    | some sc =>
      cases hk : pendingKey key_sequence ki sc.timestamp with
      | some e =>
        obtain ⟨hki, hlt⟩ := pendingKey_eq_some hk
        have htake : key_sequence.take (ki + 1) =
            key_sequence.take ki ++ [e] := by
          rw [List.take_succ, hki]; rfl
        have hcur1 : applyKeyEvent cur e =
            (key_sequence.take (ki + 1)).foldl applyKeyEvent ∅ := by
          rw [htake, List.foldl_append, ← hcur]; rfl
        have hpast1 : ∀ x ∈ key_sequence.take (ki + 1), ∀ sc2,
            screen_sequence[si]? = some sc2 → x.timestamp < sc2.timestamp := by
          intro x hx sc2 hsc2
          rw [hsi] at hsc2
          injection hsc2 with hsc2
          subst hsc2
          rw [htake] at hx
          rcases List.mem_append.mp hx with h1 | h1
          · exact hpast x h1 sc hsi
          · obtain rfl : x = e := by simpa using h1
            exact hlt
        cases hd : e.down with
        | true =>
          rw [mergeAux_step_down hsi hk hd] at h
          have hins : insert e.key_code cur = applyKeyEvent cur e := by
            simp [applyKeyEvent, hd]
          exact ih (ki + 1) si _ out data (hins.trans hcur1) hpast1 hout h
        | false =>
          by_cases hm : e.key_code ∈ cur
          · rw [mergeAux_step_up_mem hsi hk hd hm] at h
            have hera : cur.erase e.key_code = applyKeyEvent cur e := by
              rw [applyKeyEvent, hd]; simp
            exact ih (ki + 1) si _ out data (hera.trans hcur1) hpast1 hout h
          · rw [mergeAux_step_up_not_mem hsi hk hd hm] at h; nomatch h
      | none =>
        by_cases ht : end_timestamp < sc.timestamp
        · rw [mergeAux_step_cutoff hsi hk ht] at h
          obtain rfl : out = data := by injection h
          exact hout
        · rw [mergeAux_step_emit hsi hk ht] at h
          have hfilter :
              key_sequence.filter (fun x => x.timestamp < sc.timestamp) =
                key_sequence.take ki := by
            apply filter_eq_take
            · intro x hx
              exact decide_eq_true (hpast x hx sc hsi)
            · intro x hx
              cases hki2 : key_sequence[ki]? with
              | none =>
                rw [List.drop_eq_nil_of_le
                  (List.getElem?_eq_none_iff.mp hki2)] at hx
                nomatch hx
              | some e2 =>
                have h1 : sc.timestamp ≤ e2.timestamp :=
                  pendingKey_none_le hk hki2
                have h2 : e2.timestamp ≤ x.timestamp :=
                  pairwise_getElem_le_drop hks hki2 hx
                simp only [decide_eq_true_eq]
                exact not_lt_of_le (le_trans h1 h2)
          have hitem : cur = activeKeySetAt key_sequence sc.timestamp := by
            rw [activeKeySetAt, hfilter, hcur]
          have hout1 : ∀ item ∈ out ++
              [{ screen := sc.screen, key_codes := cur,
                 timestamp := sc.timestamp }],
              item.key_codes = activeKeySetAt key_sequence item.timestamp := by
            intro item hmem
            rcases List.mem_append.mp hmem with h1 | h1
            · exact hout item h1
            · obtain rfl : item =
                  { screen := sc.screen, key_codes := cur,
                    timestamp := sc.timestamp } := by simpa using h1
              exact hitem
          have hpast2 : ∀ x ∈ key_sequence.take ki, ∀ sc2,
              screen_sequence[si + 1]? = some sc2 →
              x.timestamp < sc2.timestamp := by
            intro x hx sc2 hsc2
            have h1 := hpast x hx sc hsi
            have h2 : sc.timestamp ≤ sc2.timestamp :=
              pairwise_getElem?_le hfs hsi hsc2 (by omega)
            exact lt_of_lt_of_le h1 h2
          exact ih ki (si + 1) cur _ data hcur hpast2 hout1 h

/-- C7: on frames at `t = 0, 1, 2, 3, 4`, a key down event at `t = 0.5`, the
matching up event at `t = 2.5`, and no tail discard, the merge outputs five
items whose active key sets are empty at `t = 0`, `{k}` at `t = 1` and
`t = 2`, and empty at `t = 3` and `t = 4`. -/
theorem merge_scenario_one :
    toTrainingData exKeys exFrames 0 =
      MergeResult.ok [⟨0, ∅, 0⟩, ⟨1, {"k"}, 1⟩, ⟨2, {"k"}, 2⟩,
        ⟨3, ∅, 3⟩, ⟨4, ∅, 4⟩] := by
  norm_num [toTrainingData, mergeAux, pendingKey, exKeys, exFrames]

/-- C2: contrary to the claim, the merge does not special-case an empty
frame sequence: `__to_training_data` computes the cutoff from
`screen_sequence[-1]` unconditionally, which raises `IndexError` when the
frame sequence is empty, for every key-event sequence and tail duration. -/
theorem toTrainingData_empty_frames_indexError (key_sequence : List KeyEvent)
    (discard_tail_sec : ℚ) :
    toTrainingData key_sequence [] discard_tail_sec =
      MergeResult.indexError := rfl

/-- C4: contrary to the claim, the average-frame-rate computation is not
guarded: on every single-item dataset, `__save_avi_video` divides by the
zero timestamp span `dataset[-1].timestamp - dataset[0].timestamp`, raising
`ZeroDivisionError`. -/
theorem avgFps_single_item_zeroDivisionError (item : DatasetItem) :
    avgFps [item] = FpsResult.zeroDivisionError := by
  simp [avgFps]

/-- C3 counterexample: on a two-item dataset with timestamps `0` and `1`,
the code computes `len(dataset) / span = 2 / 1 = 2`, while the claimed
formula `(count - 1) / span` gives `1`. -/
theorem avgFps_formula_counterexample :
    avgFps s2Data = FpsResult.ok 2 ∧
    (((s2Data.length : ℚ) - 1) / ((1 : ℚ) - 0)) ≠ 2 := by
  constructor
  · norm_num [avgFps, s2Data]
  · norm_num [s2Data]

/-- C3 amended: for every dataset with at least two items whose first and
last timestamps differ, the average frame rate used for video export equals
`count / (timestamp_last - timestamp_first)` (not `count - 1`). -/
theorem avgFps_count_over_span (dataset : List DatasetItem)
    (a b : DatasetItem) (h2 : 2 ≤ dataset.length)
    (hh : dataset.head? = some a) (hl : dataset.getLast? = some b)
    (hspan : b.timestamp - a.timestamp ≠ 0) :
    avgFps dataset =
      FpsResult.ok ((dataset.length : ℚ) / (b.timestamp - a.timestamp)) := by
  simp only [avgFps, hh, hl, if_neg hspan]

/-- Witness for C3 amended, at the two-item dataset with timestamps 0, 1. -/
theorem avgFps_count_over_span_witness :
    2 ≤ s2Data.length ∧ s2Data.head? = some ⟨0, ∅, 0⟩ ∧
    s2Data.getLast? = some ⟨1, ∅, 1⟩ ∧
    ((1 : ℚ) - 0 ≠ 0) ∧
    avgFps s2Data = FpsResult.ok ((s2Data.length : ℚ) / ((1 : ℚ) - 0)) :=
  ⟨by norm_num [s2Data], rfl, rfl, by norm_num,
    avgFps_count_over_span s2Data ⟨0, ∅, 0⟩ ⟨1, ∅, 1⟩
      (by norm_num [s2Data]) rfl rfl (by norm_num)⟩

/-- C10: for every pair of finite input sequences with a non-empty frame
sequence, the merge loop terminates: the fuel `|keys| + |frames| + 1`
supplied by `toTrainingData` is never exhausted, since every iteration
advances the key cursor, advances the frame cursor, or returns. -/
theorem merge_terminates (key_sequence : List KeyEvent)
    (screen_sequence : List ScreenEvent) (discard_tail_sec : ℚ)
    (hne : screen_sequence ≠ []) :
    toTrainingData key_sequence screen_sequence discard_tail_sec ≠
      MergeResult.outOfFuel := by
  rw [toTrainingData]
  cases hl : screen_sequence.getLast? with
  | none => simp
  | some last =>
    exact mergeAux_ne_outOfFuel key_sequence screen_sequence _ _ 0 0 ∅ []
      (by omega)

/-- Witness for C10 at a concrete non-empty frame sequence. -/
theorem merge_terminates_witness :
    s2Frames ≠ [] ∧
    toTrainingData [] s2Frames 0 ≠ MergeResult.outOfFuel :=
  ⟨by simp [s2Frames], merge_terminates [] s2Frames 0 (by simp [s2Frames])⟩

/-- C1: for time-ordered inputs, every retained item's key set equals the
reference active key set: the result of applying, in arrival order, exactly
the key events with timestamp strictly below the item's frame timestamp. -/
theorem merge_active_key_set_correct (key_sequence : List KeyEvent)
    (screen_sequence : List ScreenEvent) (discard_tail_sec : ℚ)
    (data : List DatasetItem) (hks : keysSorted key_sequence)
    (hfs : framesSorted screen_sequence)
    (h : toTrainingData key_sequence screen_sequence discard_tail_sec =
      MergeResult.ok data) :
    ∀ item ∈ data,
      item.key_codes = activeKeySetAt key_sequence item.timestamp := by
  rw [toTrainingData] at h
  cases hl : screen_sequence.getLast? with
  | none => rw [hl] at h; nomatch h
  | some last =>
    rw [hl] at h
    exact mergeAux_ok_active key_sequence screen_sequence _ hks hfs _ 0 0 ∅ []
      data (by simp) (by simp) (by simp) h

/-- Witness for C1 at the scenario-one inputs. -/
theorem merge_active_key_set_correct_witness :
    keysSorted exKeys ∧ framesSorted exFrames ∧
    ∀ item ∈ exData, item.key_codes = activeKeySetAt exKeys item.timestamp :=
  ⟨by norm_num [keysSorted, exKeys],
    by norm_num [framesSorted, exFrames],
    merge_active_key_set_correct exKeys exFrames 0 exData
      (by norm_num [keysSorted, exKeys])
      (by norm_num [framesSorted, exFrames])
      (by norm_num [toTrainingData, mergeAux, pendingKey, exKeys, exFrames,
        exData])⟩

/-- C5 counterexample: on frames at `t = 0` and `t = 1` (total session
length `1`) with `discard_tail_sec = 1`, the cutoff is `1 - 1 = 0` and the
first frame (timestamp `0`, not strictly above the cutoff) is still
emitted, so the output is not empty although the duration equals the
session length. -/
theorem merge_tail_discard_counterexample :
    (1 : ℚ) - 0 ≤ 1 ∧
    toTrainingData [] s2Frames 1 = MergeResult.ok [⟨0, ∅, 0⟩] ∧
    toTrainingData [] s2Frames 1 ≠ MergeResult.ok [] := by
  refine ⟨by norm_num, ?_, ?_⟩
  · norm_num [toTrainingData, mergeAux, pendingKey, s2Frames]
  · norm_num [toTrainingData, mergeAux, pendingKey, s2Frames]

/-- C5 amended: with `discard_tail_sec = 0` the merge retains every frame up
to and including the last one, and for any `discard_tail_sec` strictly
greater than the total session length the merge output is empty. -/
theorem merge_tail_boundary (key_sequence : List KeyEvent)
    (screen_sequence : List ScreenEvent) (data : List DatasetItem)
    (hfs : framesSorted screen_sequence) :
    (toTrainingData key_sequence screen_sequence 0 = MergeResult.ok data →
      data.length = screen_sequence.length) ∧
    (∀ discard_tail_sec : ℚ, ∀ a b : ScreenEvent,
      screen_sequence.head? = some a → screen_sequence.getLast? = some b →
      b.timestamp - a.timestamp < discard_tail_sec →
      toTrainingData key_sequence screen_sequence discard_tail_sec =
        MergeResult.ok data →
      data = []) := by
  constructor
  · intro h
    rw [toTrainingData] at h
    cases hl : screen_sequence.getLast? with
    | none => rw [hl] at h; nomatch h
    | some last =>
      rw [hl] at h
      have hall : ∀ sc ∈ screen_sequence,
          sc.timestamp ≤ last.timestamp - 0 := by
        intro sc hsc
        rw [sub_zero]
        exact pairwise_le_getLast hfs hl hsc
      have := mergeAux_ok_length_all key_sequence screen_sequence _ hall _
        0 0 ∅ [] data (by omega) h
      simpa using this
  · intro d a b hh hl hlt h
    rw [toTrainingData, hl] at h
    have hall : ∀ sc ∈ screen_sequence, b.timestamp - d < sc.timestamp := by
      intro sc hsc
      have h1 : a.timestamp ≤ sc.timestamp := pairwise_head_le hfs hh hsc
      linarith
    exact mergeAux_ok_of_all_late key_sequence screen_sequence _ hall _
      0 0 ∅ [] data h

/-- Witness for C5 at frames `t = 0, 1`: with no discard both frames are
retained, and with a discard above the session length nothing is. -/
theorem merge_tail_boundary_witness :
    framesSorted s2Frames ∧ s2Data.length = s2Frames.length ∧
    ([] : List DatasetItem) = [] :=
  ⟨by norm_num [framesSorted, s2Frames],
    (merge_tail_boundary [] s2Frames s2Data
        (by norm_num [framesSorted, s2Frames])).1
      (by norm_num [toTrainingData, mergeAux, pendingKey, s2Frames, s2Data]),
    (merge_tail_boundary [] s2Frames []
        (by norm_num [framesSorted, s2Frames])).2
      2 ⟨0, 0⟩ ⟨1, 1⟩ rfl rfl (by norm_num)
      (by norm_num [toTrainingData, mergeAux, pendingKey, s2Frames])⟩

/-- C6: for all inputs, the merge output length is at most the number of
frames whose timestamp is at most `last_frame_timestamp - discard_tail_sec`. -/
theorem merge_length_le_cutoff_count (key_sequence : List KeyEvent)
    (screen_sequence : List ScreenEvent) (discard_tail_sec : ℚ)
    (data : List DatasetItem) (last : ScreenEvent)
    (hl : screen_sequence.getLast? = some last)
    (h : toTrainingData key_sequence screen_sequence discard_tail_sec =
      MergeResult.ok data) :
    data.length ≤ screen_sequence.countP
      (fun sc => sc.timestamp ≤ last.timestamp - discard_tail_sec) := by
  rw [toTrainingData, hl] at h
  have := mergeAux_ok_length key_sequence screen_sequence _ _ 0 0 ∅ [] data h
  simpa using this

/-- Witness for C6 at frames `t = 0, 1` with no discard. -/
theorem merge_length_le_cutoff_count_witness :
    s2Frames.getLast? = some ⟨1, 1⟩ ∧
    s2Data.length ≤ s2Frames.countP
      (fun sc => sc.timestamp ≤ (1 : ℚ) - 0) :=
  ⟨rfl, merge_length_le_cutoff_count [] s2Frames 0 s2Data ⟨1, 1⟩ rfl
    (by norm_num [toTrainingData, mergeAux, pendingKey, s2Frames, s2Data])⟩

/-- C8: the merge removes a key on an up event without a membership check:
whenever an up event for a key not in the active set is consumed, the loop
raises `KeyError` rather than ignoring the event; and when the whole key
sequence replays consistently from the empty set, the merge never raises
`KeyError`. -/
theorem merge_up_event_policy :
    (∀ (key_sequence : List KeyEvent) (screen_sequence : List ScreenEvent)
      (end_timestamp : ℚ) (fuel ki si : Nat) (cur : Finset String)
      (out : List DatasetItem) (sc : ScreenEvent) (e : KeyEvent),
      screen_sequence[si]? = some sc →
      pendingKey key_sequence ki sc.timestamp = some e →
      e.down = false → e.key_code ∉ cur →
      mergeAux key_sequence screen_sequence end_timestamp (fuel + 1) ki si cur
        out = MergeResult.keyError) ∧
    (∀ (key_sequence : List KeyEvent) (screen_sequence : List ScreenEvent)
      (discard_tail_sec : ℚ),
      wellMatchedFrom ∅ key_sequence = true →
      toTrainingData key_sequence screen_sequence discard_tail_sec ≠
        MergeResult.keyError) := by
  constructor
  · intro ks ss endT fuel ki si cur out sc e hsi hk hd hm
    exact mergeAux_step_up_not_mem hsi hk hd hm
  · intro ks ss d hwm
    rw [toTrainingData]
    cases hl : ss.getLast? with
    | none => simp
    | some last =>
      exact mergeAux_ne_keyError ks ss _ _ 0 0 ∅ [] (by simpa using hwm)

/-- Witness for C8: an unmatched up event raises `KeyError`; the matched
scenario-one events never do. -/
theorem merge_up_event_policy_witness :
    mergeAux [⟨"k", 1/2, false⟩] [⟨0, 1⟩] 1 1 0 0 ∅ [] =
      MergeResult.keyError ∧
    toTrainingData exKeys exFrames 0 ≠ MergeResult.keyError :=
  ⟨merge_up_event_policy.1 [⟨"k", 1/2, false⟩] [⟨0, 1⟩] 1 0 0 0 ∅ []
      ⟨0, 1⟩ ⟨"k", 1/2, false⟩ rfl (by norm_num [pendingKey]) rfl (by simp),
    merge_up_event_policy.2 exKeys exFrames 0
      (by simp [wellMatchedFrom, exKeys])⟩

/-- C9: the merge output is an in-order block of the frame sequence from
its start: item `i` carries the screen and timestamp of frame `i`, and the
output timestamps are non-decreasing whenever the input frame timestamps
are. -/
theorem merge_output_aligned_frames (key_sequence : List KeyEvent)
    (screen_sequence : List ScreenEvent) (discard_tail_sec : ℚ)
    (data : List DatasetItem)
    (h : toTrainingData key_sequence screen_sequence discard_tail_sec =
      MergeResult.ok data) :
    data.map itemSig = (screen_sequence.take data.length).map frameSig ∧
    (framesSorted screen_sequence →
      (data.map DatasetItem.timestamp).Pairwise (· ≤ ·)) := by
  have hpart1 : data.map itemSig =
      (screen_sequence.take data.length).map frameSig := by
    rw [toTrainingData] at h
    cases hl : screen_sequence.getLast? with
    | none => rw [hl] at h; nomatch h
    | some last =>
      rw [hl] at h
      obtain ⟨n, hn⟩ := mergeAux_ok_sig key_sequence screen_sequence _ _
        0 0 ∅ [] data h
      simp only [List.map_nil, List.nil_append, List.drop_zero] at hn
      have hlen : data.length = min n screen_sequence.length := by
        have := congrArg List.length hn
        simpa using this
      rcases le_total n screen_sequence.length with hcase | hcase
      · rw [hn, hlen, min_eq_left hcase]
      · rw [hn, hlen, min_eq_right hcase,
          List.take_of_length_le hcase,
          List.take_of_length_le (le_refl _)]
  refine ⟨hpart1, ?_⟩
  intro hfs
  have hts : data.map DatasetItem.timestamp =
      (screen_sequence.take data.length).map ScreenEvent.timestamp := by
    have := congrArg (List.map Prod.snd) hpart1
    simpa [List.map_map, itemSig, frameSig, Function.comp] using this
  rw [hts]
  apply List.pairwise_map.mpr
  exact List.Pairwise.sublist (List.take_sublist _ _) hfs

/-- Witness for C9 at frames `t = 0, 1` with no key events. -/
theorem merge_output_aligned_frames_witness :
    s2Data.map itemSig = (s2Frames.take s2Data.length).map frameSig ∧
    (s2Data.map DatasetItem.timestamp).Pairwise (· ≤ ·) :=
  ⟨(merge_output_aligned_frames [] s2Frames 0 s2Data
      (by norm_num [toTrainingData, mergeAux, pendingKey, s2Frames,
        s2Data])).1,
    (merge_output_aligned_frames [] s2Frames 0 s2Data
      (by norm_num [toTrainingData, mergeAux, pendingKey, s2Frames,
        s2Data])).2 (by norm_num [framesSorted, s2Frames])⟩
